import Mathlib

/-!
Verification of the iteration/filtering adapter
`AliEmcalIterableContainer` (PWG/EMCAL/EMCALbase/AliEmcalIterableContainer.cxx).

The adapter wraps a read-only indexable collection (`AliEmcalContainer`,
an external collaborator exposing a total count, a reported accepted count,
an acceptance predicate and bounds-checked random access) and provides
position-based random access and bidirectional iteration, optionally
restricted to the accepted entries through a precomputed accept-index table
(a ROOT `TArrayI`).

Machine `int` positions are modelled as `Int` (no arithmetic here comes
near the 32-bit range in any claim), and the C++ `NULL` result of the
access operators is modelled as `none : Option α`.
-/

namespace AliEmcal

/-- Modelled from the spec: the source collection `AliEmcalContainer`
(declared outside the shown sources). Per the spec it exposes
(a) a total entry count, (b) random access by position returning an entry
or a null sentinel when out of range, (c) a separately reported count of
entries passing the acceptance predicate, and (d) an acceptance test
returning a boolean together with a rejection-reason code. The reported
accepted count is an independent field because an inconsistent source may
report a number different from what the predicate actually accepts. -/
structure AliEmcalContainer (α : Type) where
  entries : List α
  nAcceptReported : Int
  acceptWithReason : Int → Bool × Nat

/-- `AliEmcalContainer::GetNEntries`: total number of entries. -/
def AliEmcalContainer.GetNEntries (c : AliEmcalContainer α) : Int :=
  (c.entries.length : Int)

/-- `AliEmcalContainer::GetNAcceptEntries`: the reported accepted count. -/
def AliEmcalContainer.GetNAcceptEntries (c : AliEmcalContainer α) : Int :=
  c.nAcceptReported

/-- `AliEmcalContainer::AcceptObject(index, rejectionReason)`: the boolean
part of the acceptance test (the rejection reason is an output parameter the
adapter discards). -/
def AliEmcalContainer.AcceptObject (c : AliEmcalContainer α) (i : Int) : Bool :=
  (c.acceptWithReason i).1

/-- Modelled from the spec: the source collection random-access operator
`AliEmcalContainer::operator[]`, returning the null sentinel when the
position is out of range. -/
def AliEmcalContainer.objAt (c : AliEmcalContainer α) (i : Int) : Option α :=
  if i < 0 then none else c.entries.get? i.toNat

/-- The sublist of accepted positions among a given list of candidate
positions, as signed integers. -/
def acceptedAmong (c : AliEmcalContainer α) (idxs : List Nat) : List Int :=
  (idxs.filter (fun (i : Nat) => c.AcceptObject (i : Int))).map
    (fun (i : Nat) => (i : Int))

/-- The accepted source positions, in ascending order: position `i` with
`0 <= i < GetNEntries` is listed when `AcceptObject i` holds. -/
def acceptedPositions (c : AliEmcalContainer α) : List Int :=
  acceptedAmong c (List.range c.entries.length)

/-- Modelled from the spec: the accept-index table. In the original this is
a ROOT `TArrayI` (the member type comes from the class header, which is not
among the shown sources): a fixed-length integer array with bounds-checked
element access. -/
structure TArrayI where
  fArray : List Int

/-- `TArrayI::GetSize`: the allocated length. -/
def TArrayI.GetSize (a : TArrayI) : Int :=
  (a.fArray.length : Int)

/-- `TArrayI::Set(n)`: resize to `n` slots, keeping the old contents up to
`n` and zero-filling the rest; a negative `n` is ignored. -/
def TArrayI.SetSize (a : TArrayI) (n : Int) : TArrayI :=
  if n < 0 then a
  else ⟨a.fArray.take n.toNat ++ List.replicate (n.toNat - a.fArray.length) 0⟩

/-- `TArrayI::operator[] const` (read): bounds-checked, an out-of-range
read reports an error and yields 0. -/
def TArrayI.get (a : TArrayI) (i : Int) : Int :=
  if 0 ≤ i ∧ i < (a.fArray.length : Int) then a.fArray.getD i.toNat 0 else 0

/-- `TArrayI::operator[]` (write): bounds-checked, an out-of-range index is
reported as an error and replaced by 0, so the write lands in slot 0 and
never outside the allocation. -/
def TArrayI.setAt (a : TArrayI) (i v : Int) : TArrayI :=
  if 0 ≤ i ∧ i < (a.fArray.length : Int) then ⟨a.fArray.set i.toNat v⟩
  else ⟨a.fArray.set 0 v⟩

/-- One iteration of the loop body of
`AliEmcalIterableContainer::BuildAcceptIndices`: the state is the table
together with `acceptCounter`; an accepted `index` is written at slot
`acceptCounter`, which is then incremented. -/
def buildStep (c : AliEmcalContainer α) (st : TArrayI × Int) (index : Nat) :
    TArrayI × Int :=
  if c.AcceptObject (index : Int) then
    (st.1.setAt st.2 (index : Int), st.2 + 1)
  else st

/-- `AliEmcalIterableContainer::BuildAcceptIndices`: sizes the (fresh, empty)
table to `GetNAcceptEntries`, then scans positions `0 .. GetNEntries - 1`
in order, appending each accepted position at the running counter. -/
def BuildAcceptIndices (c : AliEmcalContainer α) : TArrayI :=
  ((List.range c.entries.length).foldl (buildStep c)
    ((TArrayI.mk []).SetSize c.GetNAcceptEntries, 0)).1

/-- The adapter `AliEmcalIterableContainer`: a non-owning reference to the
source container, the accept-index table and the mode flag. -/
structure AliEmcalIterableContainer (α : Type) where
  fkContainer : AliEmcalContainer α
  fAcceptIndices : TArrayI
  fUseAccepted : Bool

/-- The standard constructor `AliEmcalIterableContainer(cont, useAccept)`:
the table starts empty and is built exactly when `useAccept` holds. -/
def mkIterable (cont : AliEmcalContainer α) (useAccept : Bool) :
    AliEmcalIterableContainer α :=
  { fkContainer := cont
    fAcceptIndices := if useAccept then BuildAcceptIndices cont else ⟨[]⟩
    fUseAccepted := useAccept }

/-- `AliEmcalIterableContainer::GetEntries`: the table length in filtered
mode, the source total count otherwise. -/
def GetEntries (it : AliEmcalIterableContainer α) : Int :=
  if it.fUseAccepted then it.fAcceptIndices.GetSize
  else it.fkContainer.GetNEntries

/-- `AliEmcalIterableContainer::operator[]`: null sentinel outside
`[0, GetEntries)`; in filtered mode the position is mapped through the
accept-index table before delegating to the source access operator. -/
def getAt (it : AliEmcalIterableContainer α) (index : Int) : Option α :=
  if index < 0 ∨ GetEntries it ≤ index then none
  else if it.fUseAccepted then it.fkContainer.objAt (it.fAcceptIndices.get index)
  else it.fkContainer.objAt index

/-- The copy constructor: copies the source reference, the table (`TArrayI`
has value semantics: its copy constructor duplicates the buffer) and the
mode flag. -/
def copyCtor (ref : AliEmcalIterableContainer α) : AliEmcalIterableContainer α :=
  { fkContainer := ref.fkContainer
    fAcceptIndices := ref.fAcceptIndices
    fUseAccepted := ref.fUseAccepted }

/-- `operator=`: overwrites all three fields from `ref` (the self-assignment
guard of the original only skips work that would be the identity anyway). -/
def assignFrom (_tgt ref : AliEmcalIterableContainer α) :
    AliEmcalIterableContainer α :=
  { fkContainer := ref.fkContainer
    fAcceptIndices := ref.fAcceptIndices
    fUseAccepted := ref.fUseAccepted }

/-- Mutating the iteration-mode flag of an adapter value. -/
def setIterationMode (a : AliEmcalIterableContainer α) (m : Bool) :
    AliEmcalIterableContainer α :=
  { a with fUseAccepted := m }

/-- Mutating the accept-index table of an adapter value. -/
def setTable (a : AliEmcalIterableContainer α) (t : TArrayI) :
    AliEmcalIterableContainer α :=
  { a with fAcceptIndices := t }

/-- The iterator: non-owning reference to the adapter, signed position,
direction flag. -/
structure iterator (α : Type) where
  fkData : AliEmcalIterableContainer α
  fCurrent : Int
  fForward : Bool

/-- Iterator `operator++` (the returned value is the updated iterator). -/
def iterator.inc (it : iterator α) : iterator α :=
  if it.fForward then { it with fCurrent := it.fCurrent + 1 }
  else { it with fCurrent := it.fCurrent - 1 }

/-- Iterator `operator--` (the returned value is the updated iterator). -/
def iterator.dec (it : iterator α) : iterator α :=
  if it.fForward then { it with fCurrent := it.fCurrent - 1 }
  else { it with fCurrent := it.fCurrent + 1 }

/-- Iterator `operator++(int)` (the posterior increment): first component is
the returned copy of the prior state, second component is the iterator after
the call. -/
def iterator.incPost (it : iterator α) : iterator α × iterator α :=
  (⟨it.fkData, it.fCurrent, it.fForward⟩, it.inc)

/-- Iterator `operator--(int)` (the posterior decrement): first component is
the returned copy of the prior state, second component is the iterator after
the call. -/
def iterator.decPost (it : iterator α) : iterator α × iterator α :=
  (⟨it.fkData, it.fCurrent, it.fForward⟩, it.dec)

/-- Iterator `operator!=`: compares only the positions. -/
def iterator.neq (a b : iterator α) : Bool :=
  a.fCurrent != b.fCurrent

/-- Iterator `operator*`: delegates to the adapter access operator at the
current position. -/
def iterator.deref (it : iterator α) : Option α :=
  getAt it.fkData it.fCurrent

/-- The 5-entry scenario source of the spec: entries `[A,B,C,D,E]`, the
predicate accepts exactly positions 1 and 3, reported accepted count 2
(consistent). -/
def demoSource : AliEmcalContainer Char :=
  { entries := ['A', 'B', 'C', 'D', 'E']
    nAcceptReported := 2
    acceptWithReason := fun i => (i == 1 || i == 3, 0) }

/-- The filtered adapter over the scenario source. -/
def demoFiltered : AliEmcalIterableContainer Char :=
  mkIterable demoSource true

/-- The unfiltered adapter over the scenario source. -/
def demoAll : AliEmcalIterableContainer Char :=
  mkIterable demoSource false

/-- An inconsistent source: three entries, the predicate accepts all three
positions, but the reported accepted count is only 1. -/
def inconsistentSource : AliEmcalContainer Char :=
  { entries := ['X', 'Y', 'Z']
    nAcceptReported := 1
    acceptWithReason := fun _ => (true, 0) }

/-- A forward iterator over the filtered demo adapter at position 3. -/
def iterDemoF : iterator Char :=
  ⟨demoFiltered, 3, true⟩

/-- A backward iterator over the unfiltered demo adapter, also at
position 3. -/
def iterDemoA : iterator Char :=
  ⟨demoAll, 3, false⟩

/-! ## Helper lemmas -/

lemma length_setAt (a : TArrayI) (i v : Int) :
    (a.setAt i v).fArray.length = a.fArray.length := by
  unfold TArrayI.setAt
  split <;> simp

lemma buildLoop_length (c : AliEmcalContainer α) (idxs : List Nat)
    (st : TArrayI × Int) :
    (idxs.foldl (buildStep c) st).1.fArray.length = st.1.fArray.length := by
  induction idxs generalizing st with
  | nil => rfl
  | cons i rest ih =>
      rw [List.foldl_cons, ih]
      unfold buildStep
      split
      · exact length_setAt st.1 st.2 (i : Int)
      · rfl

lemma set_append_cons (pref : List Int) (v x : Int) (rest : List Int) :
    (pref ++ x :: rest).set pref.length v = pref ++ v :: rest := by
  induction pref with
  | nil => rfl
  | cons h t ih => simp [ih]

lemma acceptedAmong_cons_pos (c : AliEmcalContainer α) (i : Nat) (rest : List Nat)
    (hacc : c.AcceptObject (i : Int) = true) :
    acceptedAmong c (i :: rest) = (i : Int) :: acceptedAmong c rest := by
  simp [acceptedAmong, List.filter_cons, hacc]

lemma acceptedAmong_cons_neg (c : AliEmcalContainer α) (i : Nat) (rest : List Nat)
    (hacc : ¬ c.AcceptObject (i : Int) = true) :
    acceptedAmong c (i :: rest) = acceptedAmong c rest := by
  simp [acceptedAmong, List.filter_cons, hacc]

lemma buildLoop_spec (c : AliEmcalContainer α) (idxs : List Nat) :
    ∀ (pref : List Int) (pad : Nat),
      (acceptedAmong c idxs).length ≤ pad →
      idxs.foldl (buildStep c) (⟨pref ++ List.replicate pad 0⟩, (pref.length : Int)) =
        (⟨(pref ++ acceptedAmong c idxs) ++
            List.replicate (pad - (acceptedAmong c idxs).length) 0⟩,
          (pref.length : Int) + ((acceptedAmong c idxs).length : Int)) := by
  induction idxs with
  | nil =>
      intro pref pad h
      simp [acceptedAmong]
  | cons i rest ih =>
      intro pref pad h
      by_cases hacc : c.AcceptObject (i : Int) = true
      · rw [acceptedAmong_cons_pos c i rest hacc] at h ⊢
        have hlen : (acceptedAmong c rest).length + 1 ≤ pad := by
          rw [List.length_cons] at h
          omega
        obtain ⟨pad', rfl⟩ : ∃ p, pad = p + 1 := ⟨pad - 1, by omega⟩
        have hin : 0 ≤ (pref.length : Int) ∧
            (pref.length : Int) <
              (((pref ++ List.replicate (pad' + 1) 0).length : Nat) : Int) := by
          have hl : (pref ++ List.replicate (pad' + 1) 0).length =
              pref.length + (pad' + 1) := by
            simp
          rw [hl]
          constructor
          · exact Int.ofNat_nonneg _
          · push_cast
            omega
        have hstep :
            buildStep c (⟨pref ++ List.replicate (pad' + 1) 0⟩, (pref.length : Int)) i =
              (⟨(pref ++ [(i : Int)]) ++ List.replicate pad' 0⟩,
                ((pref ++ [(i : Int)]).length : Int)) := by
          unfold buildStep TArrayI.setAt
          rw [if_pos hacc, if_pos hin]
          have harr : (pref ++ List.replicate (pad' + 1) 0).set
              (pref.length : Int).toNat ((i : Nat) : Int) =
              (pref ++ [(i : Int)]) ++ List.replicate pad' 0 := by
            rw [Int.toNat_natCast, List.replicate_succ, set_append_cons]
            simp
          rw [harr]
          simp
        rw [List.foldl_cons, hstep, ih (pref ++ [(i : Int)]) pad' (by omega)]
        have hcount : pad' + 1 - ((i : Int) :: acceptedAmong c rest).length =
            pad' - (acceptedAmong c rest).length := by
          rw [List.length_cons]
          omega
        rw [hcount]
        simp only [Prod.mk.injEq, TArrayI.mk.injEq]
        constructor
        · simp [List.append_assoc]
        · push_cast [List.length_append, List.length_cons, List.length_nil]
          ring
      · have hrest := acceptedAmong_cons_neg c i rest hacc
        rw [List.foldl_cons]
        have hstep : buildStep c (⟨pref ++ List.replicate pad 0⟩, (pref.length : Int)) i =
            (⟨pref ++ List.replicate pad 0⟩, (pref.length : Int)) := by
          unfold buildStep
          rw [if_neg hacc]
        rw [hstep]
        simp only [hrest]
        exact ih pref pad (by rwa [hrest] at h)

lemma SetSize_empty_length (n : Int) :
    ((TArrayI.mk []).SetSize n).fArray.length = n.toNat := by
  unfold TArrayI.SetSize
  split
  next h => simp only [List.length_nil]; omega
  next h => simp

lemma BuildAcceptIndices_eq_of_consistent (c : AliEmcalContainer α)
    (h : c.GetNAcceptEntries = ((acceptedPositions c).length : Int)) :
    (BuildAcceptIndices c).fArray = acceptedPositions c := by
  unfold acceptedPositions at h ⊢
  have hinit : (TArrayI.mk []).SetSize c.GetNAcceptEntries =
      ⟨List.replicate (acceptedAmong c (List.range c.entries.length)).length 0⟩ := by
    unfold TArrayI.SetSize
    rw [h, if_neg (not_lt.mpr (Int.ofNat_nonneg _))]
    simp
  have hspec := buildLoop_spec c (List.range c.entries.length) []
    (acceptedAmong c (List.range c.entries.length)).length (le_refl _)
  simp only [List.nil_append, List.length_nil, Nat.cast_zero, Nat.sub_self,
    List.replicate_zero, List.append_nil, zero_add] at hspec
  unfold BuildAcceptIndices
  rw [hinit, hspec]

lemma mem_acceptedPositions (c : AliEmcalContainer α) (p : Int) :
    p ∈ acceptedPositions c ↔
      0 ≤ p ∧ p < c.GetNEntries ∧ c.AcceptObject p = true := by
  unfold acceptedPositions acceptedAmong AliEmcalContainer.GetNEntries
  constructor
  · intro hp
    obtain ⟨a, ha, rfl⟩ := List.mem_map.mp hp
    obtain ⟨har, hacc⟩ := List.mem_filter.mp ha
    have hr : a < c.entries.length := List.mem_range.mp har
    refine ⟨Int.ofNat_nonneg a, ?_, hacc⟩
    exact_mod_cast hr
  · rintro ⟨h0, hlt, hacc⟩
    refine List.mem_map.mpr
      ⟨p.toNat, List.mem_filter.mpr ⟨List.mem_range.mpr ?_, ?_⟩, ?_⟩
    · omega
    · rwa [Int.toNat_of_nonneg h0]
    · rw [Int.toNat_of_nonneg h0]

lemma acceptedPositions_pairwise (c : AliEmcalContainer α) :
    (acceptedPositions c).Pairwise (· < ·) := by
  unfold acceptedPositions acceptedAmong
  have h1 : (List.range c.entries.length).Pairwise (· < ·) :=
    List.pairwise_lt_range _
  have h2 : ((List.range c.entries.length).filter
      (fun (i : Nat) => c.AcceptObject (i : Int))).Pairwise (· < ·) :=
    h1.filter _
  exact h2.map (fun (i : Nat) => (i : Int))
    (fun a b hab => by show (a : Int) < (b : Int); exact_mod_cast hab)


/-! ## Claim theorems -/

/-- C1: for every adapter and every index `i` with `0 <= i < size()`, the
access operator returns the source entry at position `fAcceptIndices[i]`
when filtering is active and the source entry at position `i` otherwise;
in particular, on the 5-entry scenario source with accepted positions
1 and 3 the filtered adapter has `size() = 2`, `at(0) = B`, `at(1) = D`
and `at(2) = null`. -/
theorem C1_positional_access :
    (∀ (α : Type) (it : AliEmcalIterableContainer α) (i : Int),
      0 ≤ i → i < GetEntries it →
      getAt it i =
        if it.fUseAccepted then it.fkContainer.objAt (it.fAcceptIndices.get i)
        else it.fkContainer.objAt i) ∧
    GetEntries demoFiltered = 2 ∧
    getAt demoFiltered 0 = some 'B' ∧
    getAt demoFiltered 1 = some 'D' ∧
    getAt demoFiltered 2 = none := by
  refine ⟨?_, by decide, by decide, by decide, by decide⟩
  intro α it i h0 h1
  unfold getAt
  rw [if_neg (by omega)]

/-- Witness for C1: the general statement applied to the scenario adapter
at index 1, with both bounds discharged concretely. -/
theorem C1_positional_access_witness :
    0 ≤ (1 : Int) ∧ (1 : Int) < GetEntries demoFiltered ∧
    getAt demoFiltered 1 =
      (if demoFiltered.fUseAccepted
        then demoFiltered.fkContainer.objAt (demoFiltered.fAcceptIndices.get 1)
        else demoFiltered.fkContainer.objAt 1) :=
  ⟨by decide, by decide,
    C1_positional_access.1 Char demoFiltered 1 (by decide) (by decide)⟩

/-- C2: for every adapter, any position outside `[0, size())` yields the
null sentinel from the access operator, in filtered and unfiltered mode
alike. -/
theorem C2_out_of_range_null (α : Type) (it : AliEmcalIterableContainer α)
    (i : Int) (h : i < 0 ∨ GetEntries it ≤ i) : getAt it i = none := by
  unfold getAt
  rw [if_pos h]

/-- Witness for C2: positions -1 and `size()` on both the filtered adapter
(`size() = 2`) and the unfiltered adapter (`size() = 5`). -/
theorem C2_out_of_range_null_witness :
    (((-1 : Int) < 0 ∨ GetEntries demoFiltered ≤ -1) ∧
      getAt demoFiltered (-1) = none) ∧
    (((2 : Int) < 0 ∨ GetEntries demoFiltered ≤ 2) ∧
      getAt demoFiltered 2 = none) ∧
    (((-1 : Int) < 0 ∨ GetEntries demoAll ≤ -1) ∧
      getAt demoAll (-1) = none) ∧
    (((5 : Int) < 0 ∨ GetEntries demoAll ≤ 5) ∧
      getAt demoAll 5 = none) :=
  ⟨⟨by decide, C2_out_of_range_null Char demoFiltered (-1) (by decide)⟩,
   ⟨by decide, C2_out_of_range_null Char demoFiltered 2 (by decide)⟩,
   ⟨by decide, C2_out_of_range_null Char demoAll (-1) (by decide)⟩,
   ⟨by decide, C2_out_of_range_null Char demoAll 5 (by decide)⟩⟩

/-- C3: `GetEntries` returns the accept-index table length when filtering
is active and the source total entry count when it is inactive. -/
theorem C3_size_by_mode (α : Type) (cont : AliEmcalContainer α) :
    GetEntries (mkIterable cont true) =
      (mkIterable cont true).fAcceptIndices.GetSize ∧
    (mkIterable cont true).fAcceptIndices = BuildAcceptIndices cont ∧
    GetEntries (mkIterable cont false) = cont.GetNEntries :=
  ⟨rfl, rfl, rfl⟩

/-- C4: over a consistent source (reported accepted count = actual number
of accepted positions) the constructed table is exactly the strictly
ascending list of accepted source positions, with one entry per accepted
entry, and its length equals the reported accepted count. -/
theorem C4_accept_table_of_consistent_source (α : Type)
    (cont : AliEmcalContainer α)
    (h : cont.GetNAcceptEntries = ((acceptedPositions cont).length : Int)) :
    (BuildAcceptIndices cont).fArray = acceptedPositions cont ∧
    (BuildAcceptIndices cont).fArray.Pairwise (· < ·) ∧
    (∀ p : Int, p ∈ (BuildAcceptIndices cont).fArray ↔
      0 ≤ p ∧ p < cont.GetNEntries ∧ cont.AcceptObject p = true) ∧
    (BuildAcceptIndices cont).GetSize = cont.GetNAcceptEntries := by
  have he := BuildAcceptIndices_eq_of_consistent cont h
  refine ⟨he, ?_, ?_, ?_⟩
  · rw [he]
    exact acceptedPositions_pairwise cont
  · intro p
    rw [he]
    exact mem_acceptedPositions cont p
  · unfold TArrayI.GetSize
    rw [he, h]

/-- Witness for C4: the scenario source is consistent (reported count 2,
accepted positions 1 and 3) and its table equals the accepted positions. -/
theorem C4_accept_table_witness :
    demoSource.GetNAcceptEntries = ((acceptedPositions demoSource).length : Int) ∧
    (BuildAcceptIndices demoSource).fArray = acceptedPositions demoSource :=
  ⟨by decide,
    (C4_accept_table_of_consistent_source Char demoSource (by decide)).1⟩

/-- C5 (amended): the accept-index builder never changes the length of the
table it pre-allocated from the reported accepted count — it neither grows
the table on an inconsistent source nor fails fast; writes past the end are
redirected to slot 0 by the bounds-checked table indexing, so the
allocation itself is never overrun. -/
theorem C5_table_length_is_preallocated (α : Type) (cont : AliEmcalContainer α) :
    (BuildAcceptIndices cont).GetSize =
      ((TArrayI.mk []).SetSize cont.GetNAcceptEntries).GetSize ∧
    (BuildAcceptIndices cont).GetSize = max cont.GetNAcceptEntries 0 := by
  have hl : (BuildAcceptIndices cont).fArray.length =
      ((TArrayI.mk []).SetSize cont.GetNAcceptEntries).fArray.length := by
    unfold BuildAcceptIndices
    exact buildLoop_length cont (List.range cont.entries.length) _
  constructor
  · unfold TArrayI.GetSize
    exact_mod_cast hl
  · unfold TArrayI.GetSize
    rw [hl, SetSize_empty_length]
    exact Int.toNat_eq_max _

/-- C5 counterexample: on the inconsistent source (3 entries, every
position accepted, reported accepted count 1) the builder neither grows
the table nor fails: construction completes with the table still at its
pre-allocated length 1, the out-of-range writes having been clamped into
slot 0 (which ends up holding the last accepted position, 2). -/
theorem C5_counterexample_inconsistent_source :
    (acceptedPositions inconsistentSource).length = 3 ∧
    inconsistentSource.GetNAcceptEntries = 1 ∧
    (BuildAcceptIndices inconsistentSource).GetSize = 1 ∧
    (BuildAcceptIndices inconsistentSource).fArray = [2] := by
  refine ⟨by decide, by decide, by decide, by decide⟩

/-- C6: the forward-prefix advance moves the position by +1 for a forward
iterator and by -1 for a backward one; the retreat does the opposite; the
adapter reference and the direction flag are untouched. -/
theorem C6_advance_retreat_by_direction (α : Type) (it : iterator α) :
    it.inc.fCurrent =
      (if it.fForward then it.fCurrent + 1 else it.fCurrent - 1) ∧
    it.dec.fCurrent =
      (if it.fForward then it.fCurrent - 1 else it.fCurrent + 1) ∧
    it.inc.fkData = it.fkData ∧ it.inc.fForward = it.fForward ∧
    it.dec.fkData = it.fkData ∧ it.dec.fForward = it.fForward := by
  unfold iterator.inc iterator.dec
  by_cases h : it.fForward <;> simp [h]

/-- C7: the value-returning increment and decrement return a copy holding
the position before the call, while the iterator afterwards is exactly the
result of one application of the corresponding one-step operation. -/
theorem C7_post_ops_return_snapshot (α : Type) (it : iterator α) :
    it.incPost.1 = it ∧ it.incPost.1.fCurrent = it.fCurrent ∧
    it.incPost.2 = it.inc ∧
    it.decPost.1 = it ∧ it.decPost.1.fCurrent = it.fCurrent ∧
    it.decPost.2 = it.dec :=
  ⟨rfl, rfl, rfl, rfl, rfl, rfl⟩

/-- C8: the inequality test compares only the position fields; direction
and backing adapter never influence it, so iterators over different
adapters with equal positions compare as equal-state. -/
theorem C8_inequality_compares_positions_only :
    (∀ (α : Type) (a b : iterator α),
      a.neq b = true ↔ a.fCurrent ≠ b.fCurrent) ∧
    (∀ (α : Type) (a b : iterator α),
      a.fCurrent = b.fCurrent → a.neq b = false) := by
  constructor
  · intro α a b
    unfold iterator.neq
    exact bne_iff_ne
  · intro α a b h
    unfold iterator.neq
    rw [h]
    exact bne_self_eq_false _

/-- Witness for C8: a forward iterator over the filtered demo adapter and
a backward iterator over the unfiltered one, both at position 3, compare
as equal-state. -/
theorem C8_inequality_witness :
    iterDemoF.fCurrent = iterDemoA.fCurrent ∧
    iterDemoF.neq iterDemoA = false :=
  ⟨rfl, C8_inequality_compares_positions_only.2 Char iterDemoF iterDemoA rfl⟩

/-- C9: copy construction and assignment copy the source reference, the
accept-index table (by value) and the mode flag; the observations of the
original adapter are functions of its own unchanged fields, so replacing
the mode or the table of the copy changes only what the copy observes. -/
theorem C9_copy_value_semantics (α : Type) (a b : AliEmcalIterableContainer α)
    (m : Bool) (t : TArrayI) (i : Int) :
    (copyCtor a).fkContainer = a.fkContainer ∧
    (copyCtor a).fAcceptIndices = a.fAcceptIndices ∧
    (copyCtor a).fUseAccepted = a.fUseAccepted ∧
    assignFrom b a = copyCtor a ∧
    (setTable (setIterationMode (copyCtor a) m) t).fAcceptIndices = t ∧
    (setTable (setIterationMode (copyCtor a) m) t).fUseAccepted = m ∧
    GetEntries (setTable (setIterationMode (copyCtor a) m) t) =
      GetEntries ⟨a.fkContainer, t, m⟩ ∧
    getAt (setTable (setIterationMode (copyCtor a) m) t) i =
      getAt ⟨a.fkContainer, t, m⟩ i ∧
    GetEntries a = GetEntries ⟨a.fkContainer, a.fAcceptIndices, a.fUseAccepted⟩ ∧
    getAt a i = getAt ⟨a.fkContainer, a.fAcceptIndices, a.fUseAccepted⟩ i :=
  ⟨rfl, rfl, rfl, rfl, rfl, rfl, rfl, rfl, rfl, rfl⟩

/-- C10: for every iterator, in either direction, one-step advance followed
by one-step retreat (and the other way round) restores the iterator, in
particular its position. -/
theorem C10_advance_retreat_mutual_inverse (α : Type) (it : iterator α) :
    it.inc.dec = it ∧ it.dec.inc = it := by
  obtain ⟨d, c, f⟩ := it
  cases f <;> simp [iterator.inc, iterator.dec]


end AliEmcal
